import Mathlib

/-!
# Verification of the NACK header wire codec (ndn-cxx, lp layer)

A shallow embedding of `src/ndn-cxx/lp/nack-header.cpp` (class `NackHeader`,
enum `NackReason`, comparator `isLessSevere`) together with the generic TLV
helpers it uses (variable-length numbers, non-negative-integer blocks, `Block`
parsing).  Bytes are modelled as `Nat` values kept below 256 by construction;
machine integers are `Nat`/`Int` with explicit `% 2^w` where C++ conversions
truncate.  Fallible operations return `Option`/`Except`.
-/

namespace NdnLp

/-- TLV type numbers used by the NACK header codec.
Modelled from the spec: the header `ndn-cxx/lp/tlv.hpp` defining the constants
`tlv::Nack`, `tlv::NackReason`, `tlv::NackId`, `tlv::NackPrefixLength`,
`tlv::NackFakeNameList` and the packet-format constant `ndn::tlv::Name` is not
part of the provided sources; the spec (§6) requires only that these are fixed,
pairwise distinct TLV type tags.  Concrete distinct values are chosen here. -/
def tlvNack : Nat := 800

/-- TLV type of the reason field (see `tlvNack`). -/
def tlvNackReason : Nat := 801

/-- TLV type of the nack-id field (see `tlvNack`). -/
def tlvNackId : Nat := 810

/-- TLV type of the prefix-length field (see `tlvNack`). -/
def tlvNackPrefixLength : Nat := 811

/-- TLV type of the fake-interest-name-list field (see `tlvNack`). -/
def tlvNackFakeNameList : Nat := 812

/-- TLV type of a Name element (see `tlvNack`). -/
def tlvName : Nat := 7

/-- Byte sequence of the TLV variable-length number encoding of `n`
(big-endian; 1 byte below 253, marker 253/254/255 plus 2/4/8 bytes otherwise).
Modelled from the spec: `tlv::writeVarNumber` of the generic codec layer
(spec §4.1) is not in the provided sources.  `% 256` mirrors the truncation
to `uint8_t` of each emitted byte. -/
def encodeVarNumber (n : Nat) : List Nat :=
  if n < 253 then [n]
  else if n ≤ 0xFFFF then
    [253, n / 2 ^ 8 % 256, n % 256]
  else if n ≤ 0xFFFFFFFF then
    [254, n / 2 ^ 24 % 256, n / 2 ^ 16 % 256, n / 2 ^ 8 % 256, n % 256]
  else
    [255, n / 2 ^ 56 % 256, n / 2 ^ 48 % 256, n / 2 ^ 40 % 256,
     n / 2 ^ 32 % 256, n / 2 ^ 24 % 256, n / 2 ^ 16 % 256, n / 2 ^ 8 % 256,
     n % 256]

/-- Size of the variable-length number encoding of `n`, as computed by the
estimator pass.  Modelled from the spec: `tlv::sizeOfVarNumber` of the generic
codec layer (spec §4.1, §4.3) is not in the provided sources. -/
def sizeOfVarNumber (n : Nat) : Nat :=
  if n < 253 then 1
  else if n ≤ 0xFFFF then 3
  else if n ≤ 0xFFFFFFFF then 5
  else 9

/-- Read a TLV variable-length number from the front of a byte list, returning
the value and the unconsumed tail.  Modelled from the spec:
`tlv::readVarNumber` of the generic codec layer (spec §4.1) is not in the
provided sources; it fails when insufficient bytes remain. -/
def readVarNumber : List Nat → Option (Nat × List Nat)
  | [] => none
  | b :: rest =>
    if b < 253 then some (b, rest)
    else
      let w : Nat := if b = 253 then 2 else if b = 254 then 4 else 8
      if w ≤ rest.length then
        some ((rest.take w).foldl (fun acc x => acc * 256 + x) 0, rest.drop w)
      else none

/-- Byte sequence of the TLV NonNegativeInteger encoding of `n` (big-endian,
width 1/2/4/8 chosen by magnitude).  Modelled from the spec: the encoder
behind `prependNonNegativeIntegerBlock` (spec §6) is not in the provided
sources. -/
def encodeNonNegativeInteger (n : Nat) : List Nat :=
  if n ≤ 0xFF then [n % 256]
  else if n ≤ 0xFFFF then [n / 2 ^ 8 % 256, n % 256]
  else if n ≤ 0xFFFFFFFF then
    [n / 2 ^ 24 % 256, n / 2 ^ 16 % 256, n / 2 ^ 8 % 256, n % 256]
  else
    [n / 2 ^ 56 % 256, n / 2 ^ 48 % 256, n / 2 ^ 40 % 256, n / 2 ^ 32 % 256,
     n / 2 ^ 24 % 256, n / 2 ^ 16 % 256, n / 2 ^ 8 % 256, n % 256]

/-- Size of the NonNegativeInteger encoding of `n`, as computed by the
estimator pass.  Modelled from the spec: the generic codec layer's
size-of-non-negative-integer helper is not in the provided sources. -/
def sizeOfNonNegativeInteger (n : Nat) : Nat :=
  if n ≤ 0xFF then 1
  else if n ≤ 0xFFFF then 2
  else if n ≤ 0xFFFFFFFF then 4
  else 8

/-- A TLV element: a type tag and the raw bytes of its value region.
Modelled from the spec: class `Block` (spec §3, §4.2) is not in the provided
sources; only the interface this codec consumes (`type()`, `parse()`,
child iteration) is embedded. -/
structure Block where
  type : Nat
  value : List Nat
  deriving DecidableEq, Repr

/-- Full wire bytes of a block: type, length, then the value region. -/
def blockBytes (b : Block) : List Nat :=
  encodeVarNumber b.type ++ encodeVarNumber b.value.length ++ b.value

/-- Total wire size of a block (`Block::size()`), as used by the estimator's
`prependBlock`. -/
def blockSize (b : Block) : Nat :=
  sizeOfVarNumber b.type + sizeOfVarNumber b.value.length + b.value.length

/-- Read one complete TLV element from the front of a byte list.  Fails when
the bytes run short or the declared length overruns the remaining bytes. -/
def readTlv (bs : List Nat) : Option (Block × List Nat) :=
  match readVarNumber bs with
  | none => none
  | some (t, r1) =>
    match readVarNumber r1 with
    | none => none
    | some (l, r2) =>
      if l ≤ r2.length then some (⟨t, r2.take l⟩, r2.drop l) else none

theorem readVarNumber_length {bs r : List Nat} {n : Nat}
    (h : readVarNumber bs = some (n, r)) : r.length < bs.length := by
  cases bs with
  | nil => simp [readVarNumber] at h
  | cons b rest =>
    simp only [readVarNumber] at h
    split at h
    · simp only [Option.some.injEq, Prod.mk.injEq] at h
      obtain ⟨-, rfl⟩ := h
      simp only [List.length_cons]
      omega
    · generalize (if b = 253 then (2 : Nat) else if b = 254 then 4 else 8) = w at h
      split at h
      · simp only [Option.some.injEq, Prod.mk.injEq] at h
        obtain ⟨-, rfl⟩ := h
        simp only [List.length_drop, List.length_cons]
        omega
      · exact absurd h (by simp)

theorem readTlv_length {bs r : List Nat} {b : Block}
    (h : readTlv bs = some (b, r)) : r.length < bs.length := by
  unfold readTlv at h
  split at h
  · exact absurd h (by simp)
  · rename_i t r1 heq1
    split at h
    · exact absurd h (by simp)
    · rename_i l r2 heq2
      split at h
      · cases h
        have h1 := readVarNumber_length heq1
        have h2 := readVarNumber_length heq2
        simp only [List.length_drop]
        omega
      · exact absurd h (by simp)

/-- Worker for `parseBlocksList`: reads TLV elements until the bytes are
exhausted.  The fuel only bounds the iteration count for structural
recursion; since every TLV element occupies at least one byte, fuel equal to
the byte count never runs out (`parseBlocksAux_fuel`). -/
def parseBlocksAux : Nat → List Nat → Option (List Block)
  | _, [] => some []
  | 0, _ :: _ => none
  | fuel + 1, b :: rest =>
    match readTlv (b :: rest) with
    | none => none
    | some (blk, r) =>
      match parseBlocksAux fuel r with
      | none => none
      | some tail => some (blk :: tail)

/-- Split a byte region into the sequence of complete TLV elements it holds
(`Block::parse` applied to a value region).  Modelled from the spec:
`Block::parse` (spec §4.2) is not in the provided sources; it fails when
bytes run short or a child's declared length overruns the region. -/
def parseBlocksList (bs : List Nat) : Option (List Block) :=
  parseBlocksAux bs.length bs

/-- The fuel of `parseBlocksAux` is irrelevant once it covers the byte
count: every TLV element consumes at least one byte. -/
theorem parseBlocksAux_fuel :
    ∀ (f1 f2 : Nat) (bs : List Nat), bs.length ≤ f1 → bs.length ≤ f2 →
      parseBlocksAux f1 bs = parseBlocksAux f2 bs := by
  intro f1
  induction f1 using Nat.strong_induction_on with
  | _ f1 ih =>
    intro f2 bs h1 h2
    match bs with
    | [] =>
      cases f1 <;> cases f2 <;> rfl
    | b :: rest =>
      match f1, f2 with
      | fu1 + 1, fu2 + 1 =>
        simp only [parseBlocksAux]
        cases hr : readTlv (b :: rest) with
        | none => rfl
        | some p =>
          obtain ⟨blk, r⟩ := p
          have hlt := readTlv_length hr
          have hrec : parseBlocksAux fu1 r = parseBlocksAux fu2 r := by
            have hl : r.length ≤ fu1 := by
              simp only [List.length_cons] at h1 hlt; omega
            have hl2 : r.length ≤ fu2 := by
              simp only [List.length_cons] at h2 hlt; omega
            exact ih fu1 (Nat.lt_succ_self fu1) fu2 r hl hl2
          simp only [hrec]

/-- Lazily split a block's value region into its immediate children. -/
def Block.parse (b : Block) : Option (List Block) :=
  parseBlocksList b.value

/-- `readNonNegativeInteger` of the generic codec layer: big-endian read of a
1/2/4/8-byte value region, failing on any other length.  Modelled from the
spec: the helper (spec §6) is not in the provided sources. -/
def readNonNegativeInteger (b : Block) : Option Nat :=
  if b.value.length = 1 ∨ b.value.length = 2 ∨ b.value.length = 4 ∨
      b.value.length = 8 then
    some (b.value.foldl (fun acc x => acc * 256 + x) 0)
  else
    none

/-- The encoder interface shared by the two passes of the two-pass discipline:
`EncodingImpl<EstimatorTag>` counts bytes, `EncodingImpl<EncoderTag>` writes
them by prepending.  Each operation returns the number of bytes it
prepended together with the updated sink state.  Modelled from the spec:
`EncodingImpl` (spec §4.3) is not in the provided sources. -/
structure EncodingImpl (σ : Type) where
  prependVarNumber : Nat → σ → Nat × σ
  prependNonNegativeInteger : Nat → σ → Nat × σ
  prependBlock : Block → σ → Nat × σ

/-- The estimator pass: no sink state, every operation returns the size the
buffer pass would write. -/
def estimatorImpl : EncodingImpl Unit where
  prependVarNumber n _ := (sizeOfVarNumber n, ())
  prependNonNegativeInteger n _ := (sizeOfNonNegativeInteger n, ())
  prependBlock b _ := (blockSize b, ())

/-- The buffer pass: the sink is the byte list built so far (the final wire,
read left to right); prepending pushes bytes onto the front. -/
def bufferImpl : EncodingImpl (List Nat) where
  prependVarNumber n s := ((encodeVarNumber n).length, encodeVarNumber n ++ s)
  prependNonNegativeInteger n s :=
    ((encodeNonNegativeInteger n).length, encodeNonNegativeInteger n ++ s)
  prependBlock b s := ((blockBytes b).length, blockBytes b ++ s)

/-- `prependNonNegativeIntegerBlock(encoder, type, value)`: prepend the
value's NonNegativeInteger bytes, then the length, then the type.  Modelled
from the spec: the helper of the generic codec layer (spec §6) is not in the
provided sources. -/
def prependNonNegativeIntegerBlock {σ : Type} (E : EncodingImpl σ)
    (type value : Nat) (s : σ) : Nat × σ :=
  let p0 := E.prependNonNegativeInteger value s
  let p1 := E.prependVarNumber p0.1 p0.2
  let p2 := E.prependVarNumber type p1.2
  (p0.1 + p1.1 + p2.1, p2.2)

/-- A Name value, identified with the value region of its TLV wire encoding.
Modelled from the spec: `Name` is an external collaborator "treated as opaque,
reused as-is" (spec §1, §6); only the wire identity of a name matters to this
codec, so a name is embedded as the bytes of its wire encoding's value. -/
structure Name where
  value : List Nat
  deriving DecidableEq, Repr

/-- `Name::wireEncode()`: the name as a TLV block of type `tlvName`. -/
def Name.wireEncode (n : Name) : Block :=
  ⟨tlvName, n.value⟩

/-- `Name(const Block&)`: a name constructed from its TLV block. -/
def Name.fromBlock (b : Block) : Name :=
  ⟨b.value⟩

/-- `NackReason`'s underlying values (a C++ `enum class` with underlying type
`int`); the named enumerators are below.  `m_reason` and the comparator work
on this underlying value, exactly as the C++ object representation does. -/
abbrev NackReasonValue := Int

/-- Enumerator `DDOS_HINT_CHANGE_NOTICE = -150`. -/
def DDOS_HINT_CHANGE_NOTICE : NackReasonValue := -150

/-- Enumerator `DDOS_FAKE_INTEREST = -100`. -/
def DDOS_FAKE_INTEREST : NackReasonValue := -100

/-- Enumerator `DDOS_VALID_INTEREST_OVERLOAD = -50`. -/
def DDOS_VALID_INTEREST_OVERLOAD : NackReasonValue := -50

/-- Enumerator `DDOS_RESET_RATE = -30`. -/
def DDOS_RESET_RATE : NackReasonValue := -30

/-- Enumerator `DDOS_REPORT_VALID = -10`. -/
def DDOS_REPORT_VALID : NackReasonValue := -10

/-- Enumerator `NONE = 0`. -/
def NONE : NackReasonValue := 0

/-- Enumerator `CONGESTION = 50`. -/
def CONGESTION : NackReasonValue := 50

/-- Enumerator `DUPLICATE = 100`. -/
def DUPLICATE : NackReasonValue := 100

/-- Enumerator `NO_ROUTE = 150`. -/
def NO_ROUTE : NackReasonValue := 150

/-- The nine declared enumerators of `enum class NackReason`. -/
def nackReasonEnumerators : List NackReasonValue :=
  [DDOS_HINT_CHANGE_NOTICE, DDOS_FAKE_INTEREST, DDOS_VALID_INTEREST_OVERLOAD,
   DDOS_RESET_RATE, DDOS_REPORT_VALID, NONE, CONGESTION, DUPLICATE, NO_ROUTE]

/-- `isLessSevere(x, y)`: `NackReason::NONE` is most severe; otherwise the
signed underlying tags are compared (`to_underlying(x) < to_underlying(y)`). -/
def isLessSevere (x y : NackReasonValue) : Bool :=
  if x = NONE then false
  else if y = NONE then true
  else decide (x < y)

/-- `static_cast<uint32_t>(r)` on the underlying `int` of a `NackReason`:
conversion to an unsigned 32-bit integer is value mod `2^32`. -/
def toUInt32 (r : Int) : Nat :=
  (r % 2 ^ 32).toNat

/-- `static_cast<NackReason>(u)` on a `uint64_t`: conversion to the enum's
underlying type `int` keeps the low 32 bits, reinterpreted as signed. -/
def toInt32 (u : Nat) : Int :=
  if u % 2 ^ 32 < 2 ^ 31 then (u % 2 ^ 32 : Nat)
  else (u % 2 ^ 32 : Nat) - 2 ^ 32

/-- The state of a `NackHeader` object: the stored reason (underlying enum
value), nack id, prefix length, fake-interest name list, and the `mutable`
cached wire (`Block` when present). -/
structure NackHeader where
  m_reason : NackReasonValue
  m_nackId : Nat
  m_prefixLen : Nat
  m_fakeInterestNames : List Name
  m_wire : Option Block
  deriving DecidableEq, Repr

/-- `NackHeader::getId()`. -/
def NackHeader.getId (h : NackHeader) : Nat :=
  h.m_nackId

/-- `NackHeader::getPrefix()`. -/
def NackHeader.getPrefix (h : NackHeader) : Nat :=
  h.m_prefixLen

/-- `NackHeader::getNames()`. -/
def NackHeader.getNames (h : NackHeader) : List Name :=
  h.m_fakeInterestNames

/-- `NackHeader::getReason()`: returns the stored reason only when it is one
of `DDOS_FAKE_INTEREST`, `CONGESTION`, `DUPLICATE`, `NO_ROUTE`; every other
stored value yields `NackReason::NONE`. -/
def NackHeader.getReason (h : NackHeader) : NackReasonValue :=
  if h.m_reason = DDOS_FAKE_INTEREST ∨ h.m_reason = CONGESTION ∨
      h.m_reason = DUPLICATE ∨ h.m_reason = NO_ROUTE then
    h.m_reason
  else
    NONE

/-- `NackHeader::setReason`: store the reason and `m_wire.reset()`. -/
def NackHeader.setReason (h : NackHeader) (reason : NackReasonValue) :
    NackHeader :=
  { h with m_reason := reason, m_wire := none }

/-- `NackHeader::setId`: store the id and `m_wire.reset()`. -/
def NackHeader.setId (h : NackHeader) (id : Nat) : NackHeader :=
  { h with m_nackId := id, m_wire := none }

/-- `NackHeader::setPrefix`: store the prefix length and `m_wire.reset()`. -/
def NackHeader.setPrefix (h : NackHeader) (prefix_ : Nat) : NackHeader :=
  { h with m_prefixLen := prefix_, m_wire := none }

/-- `NackHeader::setNames`: store the name list and `m_wire.reset()`. -/
def NackHeader.setNames (h : NackHeader) (names : List Name) : NackHeader :=
  { h with m_fakeInterestNames := names, m_wire := none }

/-- The reverse-order loop of `wireEncode`: prepend each name's encoded block,
iterating the list from its end, accumulating the byte count. -/
def prependNames {σ : Type} (E : EncodingImpl σ) :
    List Name → σ → Nat × σ
  | [], s => (0, s)
  | n :: rest, s =>
    let p := prependNames E rest s
    let q := E.prependBlock n.wireEncode p.2
    (p.1 + q.1, q.2)

/-- The shared template `NackHeader::wireEncode(EncodingImpl<TAG>&)`: prepend
names (reverse iteration), the name-list envelope, prefix length, id, reason
(cast to `uint32_t`), and the outer NACK envelope, returning the total byte
count. -/
def NackHeader.wireEncodeImpl {σ : Type} (E : EncodingImpl σ)
    (h : NackHeader) (s : σ) : Nat × σ :=
  let p0 := prependNames E h.m_fakeInterestNames s
  let len0 := p0.1
  let p1 := E.prependVarNumber len0 p0.2
  let p2 := E.prependVarNumber tlvNackFakeNameList p1.2
  let p3 := prependNonNegativeIntegerBlock E tlvNackPrefixLength
    h.m_prefixLen p2.2
  let p4 := prependNonNegativeIntegerBlock E tlvNackId h.getId p3.2
  let p5 := prependNonNegativeIntegerBlock E tlvNackReason
    (toUInt32 h.m_reason) p4.2
  let len5 := len0 + p1.1 + p2.1 + p3.1 + p4.1 + p5.1
  let p6 := E.prependVarNumber len5 p5.2
  let p7 := E.prependVarNumber tlvNack p6.2
  (len5 + p6.1 + p7.1, p7.2)

/-- The estimator pass `wireEncode(EncodingEstimator&)`: the total size. -/
def NackHeader.wireEncodeEstimate (h : NackHeader) : Nat :=
  (h.wireEncodeImpl estimatorImpl ()).1

/-- The buffer pass `wireEncode(EncodingBuffer&)` started on an empty buffer:
the bytes of the encoded NACK element. -/
def NackHeader.wireEncodeBytes (h : NackHeader) : List Nat :=
  (h.wireEncodeImpl bufferImpl []).2

/-- `NackHeader::wireEncode()` (the cached entry point): return the cached
block if `m_wire.hasWire()`; otherwise run the estimator pass, run the buffer
pass, form the block from the written bytes (`buffer.block()`), cache it and
return it.  `buffer.block()` fails (`none`) if the written bytes do not form
one complete TLV element — unreachable for this encoder. -/
def NackHeader.wireEncodeCached (h : NackHeader) :
    Option (Block × NackHeader) :=
  match h.m_wire with
  | some w => some (w, h)
  | none =>
    match readTlv h.wireEncodeBytes with
    | some (b, _) => some (b, { h with m_wire := some b })
    | none => none

/-- Errors surfaced by `wireDecode`.  `formatError s` embeds a thrown
`ndn::tlv::Error` whose message starts with `s`; `endIteratorDeref` marks the
places where the C++ code dereferences the child iterator without checking it
against `elements_end()` (undefined behaviour on inputs with one to three
children), kept distinct from any thrown error. -/
inductive DecodeError where
  | formatError : String → DecodeError
  | endIteratorDeref : DecodeError
  deriving DecidableEq, Repr

/-- The name-list loop of `wireDecode`: walk the children of the
`NackFakeNameList` element from the front, constructing a `Name` from each
child while its type is `tlv::Name`, and stop at the first child of any other
type. -/
def decodeNameList : List Block → List Name
  | [] => []
  | b :: rest =>
    if b.type = tlvName then Name.fromBlock b :: decodeNameList rest
    else []

/-- `NackHeader::wireDecode(const Block&)`: check the outer type, store and
parse the wire, reset `m_reason` and the name list (and only those fields),
accept zero children, and otherwise consume the children in the strict order
reason, id, prefix length, fake-name list, checking each type tag. -/
def NackHeader.wireDecode (h : NackHeader) (wire : Block) :
    Except DecodeError NackHeader :=
  if wire.type ≠ tlvNack then .error (.formatError "Nack")
  else
    match wire.parse with
    | none => .error (.formatError "Block::parse")
    | some children =>
      let h0 : NackHeader :=
        { h with m_wire := some wire, m_reason := NONE,
                 m_fakeInterestNames := [] }
      match children with
      | [] => .ok h0
      | c0 :: rest0 =>
        if c0.type = tlvNackReason then
          match readNonNegativeInteger c0 with
          | none => .error (.formatError "NonNegativeInteger")
          | some v0 =>
            let h1 : NackHeader := { h0 with m_reason := toInt32 v0 }
            match rest0 with
            | [] => .error .endIteratorDeref
            | c1 :: rest1 =>
              if c1.type = tlvNackId then
                match readNonNegativeInteger c1 with
                | none => .error (.formatError "NonNegativeInteger")
                | some v1 =>
                  let h2 : NackHeader := { h1 with m_nackId := v1 }
                  match rest1 with
                  | [] => .error .endIteratorDeref
                  | c2 :: rest2 =>
                    if c2.type = tlvNackPrefixLength then
                      match readNonNegativeInteger c2 with
                      | none => .error (.formatError "NonNegativeInteger")
                      | some v2 =>
                        let h3 : NackHeader := { h2 with m_prefixLen := v2 }
                        match rest2 with
                        | [] => .error .endIteratorDeref
                        | c3 :: _ =>
                          if c3.type = tlvNackFakeNameList then
                            match c3.parse with
                            | none => .error (.formatError "Block::parse")
                            | some nameChildren =>
                              .ok { h3 with
                                m_fakeInterestNames :=
                                  decodeNameList nameChildren }
                          else
                            .error
                              (.formatError "expecting NackFakeNameList block")
                    else
                      .error (.formatError "expecting prefix length block")
              else .error (.formatError "NackId expected")
        else .error (.formatError "NackReason")

/-- The bytes of the encoded name list: each name's block, first name
frontmost (the reverse-order prepend loop yields insertion order). -/
def namesBytes (ns : List Name) : List Nat :=
  ns.foldr (fun n acc => blockBytes n.wireEncode ++ acc) []

/-- The reason child of the encoded NACK element. -/
def NackHeader.reasonBlock (h : NackHeader) : Block :=
  ⟨tlvNackReason, encodeNonNegativeInteger (toUInt32 h.m_reason)⟩

/-- The id child of the encoded NACK element. -/
def NackHeader.idBlock (h : NackHeader) : Block :=
  ⟨tlvNackId, encodeNonNegativeInteger h.m_nackId⟩

/-- The prefix-length child of the encoded NACK element. -/
def NackHeader.prefixBlock (h : NackHeader) : Block :=
  ⟨tlvNackPrefixLength, encodeNonNegativeInteger h.m_prefixLen⟩

/-- The fake-name-list child of the encoded NACK element. -/
def NackHeader.nameListBlock (h : NackHeader) : Block :=
  ⟨tlvNackFakeNameList, namesBytes h.m_fakeInterestNames⟩

/-- The value region of the encoded NACK element: the four children in wire
order reason, id, prefix length, name list. -/
def NackHeader.contentBytes (h : NackHeader) : List Nat :=
  blockBytes h.reasonBlock ++ blockBytes h.idBlock ++
    blockBytes h.prefixBlock ++ blockBytes h.nameListBlock

/-- The encoded NACK element as a block. -/
def NackHeader.wireBlock (h : NackHeader) : Block :=
  ⟨tlvNack, h.contentBytes⟩

theorem length_encodeVarNumber (n : Nat) :
    (encodeVarNumber n).length = sizeOfVarNumber n := by
  unfold encodeVarNumber sizeOfVarNumber
  split_ifs <;> rfl

theorem length_encodeNonNegativeInteger (n : Nat) :
    (encodeNonNegativeInteger n).length = sizeOfNonNegativeInteger n := by
  unfold encodeNonNegativeInteger sizeOfNonNegativeInteger
  split_ifs <;> rfl

theorem blockBytes_length (b : Block) :
    (blockBytes b).length = blockSize b := by
  simp only [blockBytes, blockSize, List.length_append, length_encodeVarNumber]

theorem prependNames_buffer (ns : List Name) (s : List Nat) :
    prependNames bufferImpl ns s = ((namesBytes ns).length, namesBytes ns ++ s) := by
  induction ns generalizing s with
  | nil => simp [prependNames, namesBytes]
  | cons n rest ih =>
    rw [prependNames, ih]
    simp only [namesBytes, List.foldr_cons, bufferImpl, List.length_append,
      List.append_assoc, Prod.mk.injEq]
    exact ⟨by omega, by trivial⟩

theorem prependNames_estimator (ns : List Name) (u : Unit) :
    prependNames estimatorImpl ns u = ((namesBytes ns).length, ()) := by
  induction ns with
  | nil => simp [prependNames, namesBytes]
  | cons n rest ih =>
    rw [prependNames, ih]
    simp only [namesBytes, List.foldr_cons, estimatorImpl, List.length_append,
      blockBytes_length, Prod.mk.injEq]
    exact ⟨by omega, by trivial⟩

theorem prependNNIB_buffer (t v : Nat) (s : List Nat) :
    prependNonNegativeIntegerBlock bufferImpl t v s =
      ((blockBytes ⟨t, encodeNonNegativeInteger v⟩).length,
        blockBytes ⟨t, encodeNonNegativeInteger v⟩ ++ s) := by
  simp only [prependNonNegativeIntegerBlock, bufferImpl, blockBytes,
    List.length_append, List.append_assoc, Prod.mk.injEq]
  exact ⟨by omega, by trivial⟩

theorem prependNNIB_estimator (t v : Nat) (u : Unit) :
    prependNonNegativeIntegerBlock estimatorImpl t v u =
      ((blockBytes ⟨t, encodeNonNegativeInteger v⟩).length, ()) := by
  simp only [prependNonNegativeIntegerBlock, estimatorImpl, blockBytes_length,
    blockSize, length_encodeNonNegativeInteger, Prod.mk.injEq]
  exact ⟨by omega, by trivial⟩

theorem wireEncodeImpl_buffer (h : NackHeader) (s : List Nat) :
    h.wireEncodeImpl bufferImpl s =
      ((blockBytes h.wireBlock).length, blockBytes h.wireBlock ++ s) := by
  simp only [NackHeader.wireEncodeImpl, NackHeader.getId, prependNames_buffer,
    prependNNIB_buffer]
  simp only [bufferImpl, NackHeader.wireBlock, NackHeader.contentBytes,
    blockBytes, NackHeader.reasonBlock, NackHeader.idBlock,
    NackHeader.prefixBlock, NackHeader.nameListBlock, List.length_append,
    List.append_assoc, Prod.mk.injEq, length_encodeVarNumber]
  ring_nf
  exact ⟨trivial, trivial⟩

theorem wireEncodeImpl_estimator (h : NackHeader) (u : Unit) :
    h.wireEncodeImpl estimatorImpl u =
      ((blockBytes h.wireBlock).length, ()) := by
  simp only [NackHeader.wireEncodeImpl, NackHeader.getId,
    prependNames_estimator, prependNNIB_estimator]
  simp only [estimatorImpl, NackHeader.wireBlock, NackHeader.contentBytes,
    blockBytes, NackHeader.reasonBlock, NackHeader.idBlock,
    NackHeader.prefixBlock, NackHeader.nameListBlock, List.length_append,
    Prod.mk.injEq, length_encodeVarNumber]
  ring_nf
  exact ⟨trivial, trivial⟩

theorem wireEncodeBytes_eq (h : NackHeader) :
    h.wireEncodeBytes = blockBytes h.wireBlock := by
  simp [NackHeader.wireEncodeBytes, wireEncodeImpl_buffer]

theorem readVarNumber_encode {n : Nat} (hn : n < 2 ^ 64) (r : List Nat) :
    readVarNumber (encodeVarNumber n ++ r) = some (n, r) := by
  unfold encodeVarNumber
  split_ifs with h1 h2 h3
  · simp [readVarNumber, h1]
  · simp only [List.cons_append, readVarNumber, List.length_cons,
      List.take_succ_cons, List.take_zero, List.drop_succ_cons,
      List.drop_zero, List.foldl_cons, List.foldl_nil]
    norm_num
    omega
  · simp only [List.cons_append, readVarNumber, List.length_cons,
      List.take_succ_cons, List.take_zero, List.drop_succ_cons,
      List.drop_zero, List.foldl_cons, List.foldl_nil]
    norm_num
    omega
  · simp only [List.cons_append, readVarNumber, List.length_cons,
      List.take_succ_cons, List.take_zero, List.drop_succ_cons,
      List.drop_zero, List.foldl_cons, List.foldl_nil]
    norm_num
    omega

theorem readNonNegativeInteger_encode {n : Nat} (hn : n < 2 ^ 64) (t : Nat) :
    readNonNegativeInteger ⟨t, encodeNonNegativeInteger n⟩ = some n := by
  unfold encodeNonNegativeInteger
  split_ifs with h1 h2 h3
  · simp only [readNonNegativeInteger, List.length_cons, List.length_nil,
      List.foldl_cons, List.foldl_nil]
    norm_num
    omega
  · simp only [readNonNegativeInteger, List.length_cons, List.length_nil,
      List.foldl_cons, List.foldl_nil]
    norm_num
    omega
  · simp only [readNonNegativeInteger, List.length_cons, List.length_nil,
      List.foldl_cons, List.foldl_nil]
    norm_num
    omega
  · simp only [readNonNegativeInteger, List.length_cons, List.length_nil,
      List.foldl_cons, List.foldl_nil]
    norm_num
    omega

theorem readTlv_blockBytes {b : Block} (ht : b.type < 2 ^ 64)
    (hv : b.value.length < 2 ^ 64) (r : List Nat) :
    readTlv (blockBytes b ++ r) = some (b, r) := by
  have e1 := readVarNumber_encode ht
    (encodeVarNumber b.value.length ++ (b.value ++ r))
  have e2 := readVarNumber_encode hv (b.value ++ r)
  simp only [blockBytes, List.append_assoc, readTlv, e1, e2]
  rw [if_pos (by simp only [List.length_append]; omega)]
  simp [List.take_left, List.drop_left]

theorem encodeVarNumber_ne_nil (n : Nat) : encodeVarNumber n ≠ [] := by
  unfold encodeVarNumber
  split_ifs <;> simp

theorem blockBytes_ne_nil (b : Block) : blockBytes b ≠ [] := by
  simp [blockBytes, encodeVarNumber_ne_nil]

/-- The concatenated wire bytes of a sequence of blocks. -/
def blocksBytes (bs : List Block) : List Nat :=
  bs.foldr (fun b acc => blockBytes b ++ acc) []

theorem parseBlocksAux_cons_eq (f : Nat) (bs : List Nat) (hbs : bs ≠ []) :
    parseBlocksAux (f + 1) bs =
      match readTlv bs with
      | none => none
      | some (blk, r) =>
        match parseBlocksAux f r with
        | none => none
        | some tail => some (blk :: tail) := by
  obtain ⟨x, xs, rfl⟩ := List.exists_cons_of_ne_nil hbs
  rfl

theorem parseBlocksAux_blocksBytes (bs : List Block) :
    ∀ fuel : Nat, (∀ b ∈ bs, b.type < 2 ^ 64 ∧ b.value.length < 2 ^ 64) →
      (blocksBytes bs).length ≤ fuel →
      parseBlocksAux fuel (blocksBytes bs) = some bs := by
  induction bs with
  | nil => intro fuel _ _; cases fuel <;> rfl
  | cons b rest ih =>
    intro fuel hwf hfuel
    have hb := hwf b (by simp)
    have hbytes : blocksBytes (b :: rest) = blockBytes b ++ blocksBytes rest :=
      rfl
    have hne : blocksBytes (b :: rest) ≠ [] := by
      rw [hbytes]
      simp [blockBytes_ne_nil b, List.append_eq_nil]
    have hpos : 1 ≤ (blockBytes b).length :=
      List.length_pos.mpr (blockBytes_ne_nil b)
    match fuel with
    | 0 =>
      exfalso
      have := List.length_pos.mpr hne
      omega
    | f + 1 =>
      rw [parseBlocksAux_cons_eq f _ hne, hbytes,
        readTlv_blockBytes hb.1 hb.2]
      have hrec : parseBlocksAux f (blocksBytes rest) = some rest :=
        ih f (fun x hx => hwf x (by simp [hx]))
          (by rw [hbytes] at hfuel; simp only [List.length_append] at hfuel
              omega)
      simp [hrec]

theorem parseBlocksList_blocksBytes (bs : List Block)
    (hwf : ∀ b ∈ bs, b.type < 2 ^ 64 ∧ b.value.length < 2 ^ 64) :
    parseBlocksList (blocksBytes bs) = some bs :=
  parseBlocksAux_blocksBytes bs _ hwf le_rfl

theorem contentBytes_eq_blocksBytes (h : NackHeader) :
    h.contentBytes =
      blocksBytes [h.reasonBlock, h.idBlock, h.prefixBlock, h.nameListBlock] := by
  simp [NackHeader.contentBytes, blocksBytes, List.append_assoc]

theorem namesBytes_eq_blocksBytes (ns : List Name) :
    namesBytes ns = blocksBytes (ns.map Name.wireEncode) := by
  simp [namesBytes, blocksBytes, List.foldr_map]

theorem length_encodeNonNegativeInteger_le (n : Nat) :
    (encodeNonNegativeInteger n).length ≤ 8 := by
  unfold encodeNonNegativeInteger
  split_ifs <;> simp

theorem decodeNameList_map (ns : List Name) :
    decodeNameList (ns.map Name.wireEncode) = ns := by
  induction ns with
  | nil => rfl
  | cons n rest ih =>
    simp [decodeNameList, Name.wireEncode, Name.fromBlock, ih]

theorem toUInt32_lt (r : Int) : toUInt32 r < 2 ^ 32 := by
  unfold toUInt32
  omega

theorem toInt32_toUInt32 {r : Int} (h1 : -(2 ^ 31) ≤ r) (h2 : r < 2 ^ 31) :
    toInt32 (toUInt32 r) = r := by
  unfold toInt32 toUInt32
  split_ifs <;> omega

theorem wireBlock_parse (h : NackHeader)
    (hnl : (namesBytes h.m_fakeInterestNames).length < 2 ^ 64) :
    h.wireBlock.parse =
      some [h.reasonBlock, h.idBlock, h.prefixBlock, h.nameListBlock] := by
  rw [Block.parse, show h.wireBlock.value = h.contentBytes from rfl,
    contentBytes_eq_blocksBytes]
  apply parseBlocksList_blocksBytes
  intro x hx
  simp only [List.mem_cons, List.not_mem_nil, or_false] at hx
  have hle := length_encodeNonNegativeInteger_le
  rcases hx with rfl | rfl | rfl | rfl
  · exact ⟨by norm_num [NackHeader.reasonBlock, tlvNackReason],
      by have := hle (toUInt32 h.m_reason)
         simp only [NackHeader.reasonBlock]
         omega⟩
  · exact ⟨by norm_num [NackHeader.idBlock, tlvNackId],
      by have := hle h.m_nackId
         simp only [NackHeader.idBlock]
         omega⟩
  · exact ⟨by norm_num [NackHeader.prefixBlock, tlvNackPrefixLength],
      by have := hle h.m_prefixLen
         simp only [NackHeader.prefixBlock]
         omega⟩
  · exact ⟨by norm_num [NackHeader.nameListBlock, tlvNackFakeNameList],
      by simpa [NackHeader.nameListBlock] using hnl⟩

theorem nameListBlock_parse (h : NackHeader)
    (hn : ∀ n ∈ h.m_fakeInterestNames, n.value.length < 2 ^ 64) :
    h.nameListBlock.parse =
      some (h.m_fakeInterestNames.map Name.wireEncode) := by
  rw [Block.parse,
    show h.nameListBlock.value = namesBytes h.m_fakeInterestNames from rfl,
    namesBytes_eq_blocksBytes]
  apply parseBlocksList_blocksBytes
  intro x hx
  simp only [List.mem_map] at hx
  obtain ⟨n, hmem, rfl⟩ := hx
  exact ⟨by norm_num [Name.wireEncode, tlvName], by
    simpa [Name.wireEncode] using hn n hmem⟩

theorem wireDecode_wireBlock (g h : NackHeader)
    (hr1 : -(2 ^ 31) ≤ h.m_reason) (hr2 : h.m_reason < 2 ^ 31)
    (hid : h.m_nackId < 2 ^ 64) (hp : h.m_prefixLen < 2 ^ 64)
    (hnl : (namesBytes h.m_fakeInterestNames).length < 2 ^ 64)
    (hn : ∀ n ∈ h.m_fakeInterestNames, n.value.length < 2 ^ 64) :
    g.wireDecode h.wireBlock = .ok
      ⟨h.m_reason, h.m_nackId, h.m_prefixLen, h.m_fakeInterestNames,
        some h.wireBlock⟩ := by
  have e0 : readNonNegativeInteger h.reasonBlock =
      some (toUInt32 h.m_reason) :=
    readNonNegativeInteger_encode
      (lt_trans (toUInt32_lt h.m_reason) (by norm_num)) _
  have e1 : readNonNegativeInteger h.idBlock = some h.m_nackId :=
    readNonNegativeInteger_encode hid _
  have e2 : readNonNegativeInteger h.prefixBlock = some h.m_prefixLen :=
    readNonNegativeInteger_encode hp _
  have t0 : h.reasonBlock.type = tlvNackReason := rfl
  have t1 : h.idBlock.type = tlvNackId := rfl
  have t2 : h.prefixBlock.type = tlvNackPrefixLength := rfl
  have t3 : h.nameListBlock.type = tlvNackFakeNameList := rfl
  have tw : h.wireBlock.type = tlvNack := rfl
  unfold NackHeader.wireDecode
  rw [wireBlock_parse h hnl]
  simp only [tw, ne_eq, not_true_eq_false, if_false, ite_false, if_neg,
    t0, t1, t2, t3, e0, e1, e2, nameListBlock_parse h hn, decodeNameList_map,
    toInt32_toUInt32 hr1 hr2, ite_true, if_pos, reduceIte]

theorem length_encodeVarNumber_le (n : Nat) :
    (encodeVarNumber n).length ≤ 9 := by
  unfold encodeVarNumber
  split_ifs <;> simp

theorem contentBytes_length_lt (h : NackHeader)
    (hnl : (namesBytes h.m_fakeInterestNames).length ≤ 2 ^ 60) :
    h.contentBytes.length < 2 ^ 64 := by
  have e1 := length_encodeVarNumber_le tlvNackReason
  have e2 := length_encodeVarNumber_le tlvNackId
  have e3 := length_encodeVarNumber_le tlvNackPrefixLength
  have e4 := length_encodeVarNumber_le tlvNackFakeNameList
  have f1 := length_encodeNonNegativeInteger_le (toUInt32 h.m_reason)
  have f2 := length_encodeNonNegativeInteger_le h.m_nackId
  have f3 := length_encodeNonNegativeInteger_le h.m_prefixLen
  have g1 := length_encodeVarNumber_le
    (encodeNonNegativeInteger (toUInt32 h.m_reason)).length
  have g2 := length_encodeVarNumber_le (encodeNonNegativeInteger h.m_nackId).length
  have g3 := length_encodeVarNumber_le
    (encodeNonNegativeInteger h.m_prefixLen).length
  have g4 := length_encodeVarNumber_le (namesBytes h.m_fakeInterestNames).length
  simp only [NackHeader.contentBytes, blockBytes, NackHeader.reasonBlock,
    NackHeader.idBlock, NackHeader.prefixBlock, NackHeader.nameListBlock,
    List.length_append] at *
  omega

theorem wireEncodeCached_none (h : NackHeader) (hw : h.m_wire = none)
    (hc : h.contentBytes.length < 2 ^ 64) :
    h.wireEncodeCached =
      some (h.wireBlock, { h with m_wire := some h.wireBlock }) := by
  unfold NackHeader.wireEncodeCached
  rw [hw]
  have rt : readTlv h.wireEncodeBytes = some (h.wireBlock, []) := by
    rw [wireEncodeBytes_eq]
    have hb := readTlv_blockBytes (b := h.wireBlock)
      (by norm_num [NackHeader.wireBlock, tlvNack])
      (by simpa [NackHeader.wireBlock] using hc) []
    rwa [List.append_nil] at hb
  rw [rt]

theorem decodeNameList_all (pre : List Block)
    (hpre : ∀ x ∈ pre, x.type = tlvName) :
    decodeNameList pre = pre.map Name.fromBlock := by
  induction pre with
  | nil => rfl
  | cons b rest ih =>
    rw [decodeNameList, if_pos (hpre b (by simp)), List.map_cons,
      ih (fun x hx => hpre x (by simp [hx]))]

theorem decodeNameList_stop (pre : List Block) (bad : Block) (suf : List Block)
    (hpre : ∀ x ∈ pre, x.type = tlvName) (hbad : bad.type ≠ tlvName) :
    decodeNameList (pre ++ bad :: suf) = pre.map Name.fromBlock := by
  induction pre with
  | nil => simp [decodeNameList, hbad]
  | cons b rest ih =>
    rw [List.cons_append, decodeNameList, if_pos (hpre b (by simp)),
      List.map_cons, ih (fun x hx => hpre x (by simp [hx]))]

end NdnLp

/-- C3: `isLessSevere(NONE, x)` is false for every NackReason value x
(including NONE); `isLessSevere(x, NONE)` is true for every x distinct from
NONE; and for x, y both non-NONE, `isLessSevere(x, y)` holds exactly when the
signed underlying tag of x is less than that of y. -/
theorem NdnLp.isLessSevere_spec (x y : NdnLp.NackReasonValue)
    (hx : x ∈ NdnLp.nackReasonEnumerators)
    (hy : y ∈ NdnLp.nackReasonEnumerators) :
    NdnLp.isLessSevere NdnLp.NONE y = false ∧
    (x ≠ NdnLp.NONE → NdnLp.isLessSevere x NdnLp.NONE = true) ∧
    (x ≠ NdnLp.NONE → y ≠ NdnLp.NONE →
      (NdnLp.isLessSevere x y = true ↔ x < y)) := by
  fin_cases hx <;> fin_cases hy <;> decide

/-- Witness for C3 at x = CONGESTION (tag 50), y = NO_ROUTE (tag 150). -/
theorem NdnLp.isLessSevere_spec_witness :
    NdnLp.isLessSevere NdnLp.NONE NdnLp.NO_ROUTE = false ∧
    (NdnLp.CONGESTION ≠ NdnLp.NONE →
      NdnLp.isLessSevere NdnLp.CONGESTION NdnLp.NONE = true) ∧
    (NdnLp.CONGESTION ≠ NdnLp.NONE → NdnLp.NO_ROUTE ≠ NdnLp.NONE →
      (NdnLp.isLessSevere NdnLp.CONGESTION NdnLp.NO_ROUTE = true ↔
        NdnLp.CONGESTION < NdnLp.NO_ROUTE)) :=
  NdnLp.isLessSevere_spec NdnLp.CONGESTION NdnLp.NO_ROUTE (by decide) (by decide)

/-- C4: for every combination of NackHeader field values and every initial
buffer state, the byte count returned by the estimator pass of
`wireEncode(EncodingImpl<TAG>&)` equals the byte count returned by the buffer
pass, and both equal the number of bytes actually written. -/
theorem NdnLp.wireEncode_estimate_eq_buffer (h : NdnLp.NackHeader)
    (s : List Nat) :
    h.wireEncodeEstimate = (h.wireEncodeImpl NdnLp.bufferImpl s).1 ∧
    h.wireEncodeEstimate = h.wireEncodeBytes.length := by
  rw [NdnLp.NackHeader.wireEncodeEstimate, NdnLp.wireEncodeImpl_estimator,
    NdnLp.wireEncodeImpl_buffer, NdnLp.wireEncodeBytes_eq]
  exact ⟨rfl, rfl⟩


/-- C1: for every NackHeader whose fields hold valid values (a declared
NackReason enumerator, 64-bit id and prefix length, names with representable
wire sizes) and no stale cache, decoding the Block returned by `wireEncode()`
reproduces a header with identical reason, id, prefixLen and name list, in
the same order. -/
theorem NdnLp.nackHeader_wire_roundtrip (h g : NdnLp.NackHeader)
    (hr : h.m_reason ∈ NdnLp.nackReasonEnumerators)
    (hid : h.m_nackId < 2 ^ 64) (hp : h.m_prefixLen < 2 ^ 64)
    (hnl : (NdnLp.namesBytes h.m_fakeInterestNames).length ≤ 2 ^ 60)
    (hn : ∀ n ∈ h.m_fakeInterestNames, n.value.length < 2 ^ 64)
    (hw : h.m_wire = none) :
    ∃ b h', h.wireEncodeCached = some (b, h') ∧
      ∃ h'', g.wireDecode b = .ok h'' ∧
        h''.m_reason = h.m_reason ∧ h''.getReason = h.getReason ∧
        h''.getId = h.getId ∧ h''.getPrefix = h.getPrefix ∧
        h''.getNames = h.getNames := by
  have hb : -(2 ^ 31) ≤ h.m_reason ∧ h.m_reason < 2 ^ 31 := by
    simp only [NdnLp.nackReasonEnumerators, NdnLp.DDOS_HINT_CHANGE_NOTICE,
      NdnLp.DDOS_FAKE_INTEREST, NdnLp.DDOS_VALID_INTEREST_OVERLOAD,
      NdnLp.DDOS_RESET_RATE, NdnLp.DDOS_REPORT_VALID, NdnLp.NONE,
      NdnLp.CONGESTION, NdnLp.DUPLICATE, NdnLp.NO_ROUTE, List.mem_cons,
      List.not_mem_nil, or_false] at hr
    rcases hr with h1 | h1 | h1 | h1 | h1 | h1 | h1 | h1 | h1 <;>
      rw [h1] <;> exact ⟨by decide, by decide⟩
  have hc := NdnLp.contentBytes_length_lt h hnl
  refine ⟨h.wireBlock, _, NdnLp.wireEncodeCached_none h hw hc, ?_⟩
  exact ⟨_, NdnLp.wireDecode_wireBlock g h hb.1 hb.2 hid hp (by omega) hn,
    rfl, rfl, rfl, rfl, rfl⟩

/-- Witness for C1 at the header with reason CONGESTION (50), id 3,
prefixLen 4, one name. -/
theorem NdnLp.nackHeader_wire_roundtrip_witness :
    ∃ b h',
      (NdnLp.NackHeader.wireEncodeCached ⟨50, 3, 4, [⟨[1, 2]⟩], none⟩) =
        some (b, h') ∧
      ∃ h'', NdnLp.NackHeader.wireDecode ⟨0, 0, 0, [], none⟩ b = .ok h'' ∧
        h''.m_reason = (⟨50, 3, 4, [⟨[1, 2]⟩], none⟩ : NdnLp.NackHeader).m_reason ∧
        h''.getReason =
          (⟨50, 3, 4, [⟨[1, 2]⟩], none⟩ : NdnLp.NackHeader).getReason ∧
        h''.getId = (⟨50, 3, 4, [⟨[1, 2]⟩], none⟩ : NdnLp.NackHeader).getId ∧
        h''.getPrefix =
          (⟨50, 3, 4, [⟨[1, 2]⟩], none⟩ : NdnLp.NackHeader).getPrefix ∧
        h''.getNames =
          (⟨50, 3, 4, [⟨[1, 2]⟩], none⟩ : NdnLp.NackHeader).getNames :=
  NdnLp.nackHeader_wire_roundtrip ⟨50, 3, 4, [⟨[1, 2]⟩], none⟩
    ⟨0, 0, 0, [], none⟩ (by decide) (by decide) (by decide) (by decide)
    (by decide) rfl

/-- C9: `wireEncode` writes the reason as `static_cast<uint32_t>(m_reason)`,
so stored reason DDOS_RESET_RATE (tag -30) appears on the wire as
4294967266 = 2^32 - 30; `wireDecode`'s cast back recovers the stored tag -30,
while `getReason()` on that decoded header reports NONE. -/
theorem NdnLp.negativeReason_wire_encoding (h g : NdnLp.NackHeader)
    (hr : h.m_reason = NdnLp.DDOS_RESET_RATE)
    (hid : h.m_nackId < 2 ^ 64) (hp : h.m_prefixLen < 2 ^ 64)
    (hnl : (NdnLp.namesBytes h.m_fakeInterestNames).length ≤ 2 ^ 60)
    (hn : ∀ n ∈ h.m_fakeInterestNames, n.value.length < 2 ^ 64) :
    NdnLp.toUInt32 h.m_reason = 4294967266 ∧
    h.reasonBlock =
      ⟨NdnLp.tlvNackReason, NdnLp.encodeNonNegativeInteger 4294967266⟩ ∧
    h.wireBlock.parse =
      some [h.reasonBlock, h.idBlock, h.prefixBlock, h.nameListBlock] ∧
    ∃ h', g.wireDecode h.wireBlock = .ok h' ∧
      h'.m_reason = NdnLp.DDOS_RESET_RATE ∧ h'.getReason = NdnLp.NONE := by
  have hu : NdnLp.toUInt32 h.m_reason = 4294967266 := by
    rw [hr]
    decide
  refine ⟨hu, by rw [NdnLp.NackHeader.reasonBlock, hu], ?_, ?_⟩
  · exact NdnLp.wireBlock_parse h (by omega)
  · refine ⟨_, NdnLp.wireDecode_wireBlock g h (by rw [hr]; decide)
      (by rw [hr]; decide) hid hp (by omega) hn, hr, ?_⟩
    simp only [NdnLp.NackHeader.getReason, hr]
    decide

/-- Witness for C9 at the header with reason DDOS_RESET_RATE, id 1,
prefixLen 2, no names. -/
theorem NdnLp.negativeReason_wire_encoding_witness :
    NdnLp.toUInt32 (⟨-30, 1, 2, [], none⟩ : NdnLp.NackHeader).m_reason =
      4294967266 ∧
    (⟨-30, 1, 2, [], none⟩ : NdnLp.NackHeader).reasonBlock =
      ⟨NdnLp.tlvNackReason, NdnLp.encodeNonNegativeInteger 4294967266⟩ ∧
    (⟨-30, 1, 2, [], none⟩ : NdnLp.NackHeader).wireBlock.parse =
      some [(⟨-30, 1, 2, [], none⟩ : NdnLp.NackHeader).reasonBlock,
        (⟨-30, 1, 2, [], none⟩ : NdnLp.NackHeader).idBlock,
        (⟨-30, 1, 2, [], none⟩ : NdnLp.NackHeader).prefixBlock,
        (⟨-30, 1, 2, [], none⟩ : NdnLp.NackHeader).nameListBlock] ∧
    ∃ h', NdnLp.NackHeader.wireDecode ⟨0, 0, 0, [], none⟩
        (⟨-30, 1, 2, [], none⟩ : NdnLp.NackHeader).wireBlock = .ok h' ∧
      h'.m_reason = NdnLp.DDOS_RESET_RATE ∧ h'.getReason = NdnLp.NONE :=
  NdnLp.negativeReason_wire_encoding ⟨-30, 1, 2, [], none⟩
    ⟨0, 0, 0, [], none⟩ (by decide) (by decide) (by decide) (by decide)
    (by decide)

/-- C10: the Block produced by `wireEncode()` always parses into exactly four
top-level children (reason, id, prefix length, fake-name list), even when all
fields hold default values; the encoder never produces the zero-children
"empty NACK" form. -/
theorem NdnLp.encode_has_four_children (h : NdnLp.NackHeader)
    (hw : h.m_wire = none)
    (hnl : (NdnLp.namesBytes h.m_fakeInterestNames).length ≤ 2 ^ 60) :
    ∃ b h', h.wireEncodeCached = some (b, h') ∧
      b.parse = some [h.reasonBlock, h.idBlock, h.prefixBlock,
        h.nameListBlock] ∧
      ∀ cs, b.parse = some cs → cs.length = 4 := by
  have hc := NdnLp.contentBytes_length_lt h hnl
  refine ⟨h.wireBlock, _, NdnLp.wireEncodeCached_none h hw hc,
    NdnLp.wireBlock_parse h (by omega), ?_⟩
  intro cs hcs
  rw [NdnLp.wireBlock_parse h (by omega)] at hcs
  simp only [Option.some.injEq] at hcs
  rw [← hcs]
  rfl

/-- Witness for C10 at the all-defaults header (reason NONE, id 0,
prefixLen 0, empty name list). -/
theorem NdnLp.encode_has_four_children_witness :
    ∃ b h',
      (NdnLp.NackHeader.wireEncodeCached ⟨0, 0, 0, [], none⟩) = some (b, h') ∧
      b.parse = some [(⟨0, 0, 0, [], none⟩ : NdnLp.NackHeader).reasonBlock,
        (⟨0, 0, 0, [], none⟩ : NdnLp.NackHeader).idBlock,
        (⟨0, 0, 0, [], none⟩ : NdnLp.NackHeader).prefixBlock,
        (⟨0, 0, 0, [], none⟩ : NdnLp.NackHeader).nameListBlock] ∧
      ∀ cs, b.parse = some cs → cs.length = 4 :=
  NdnLp.encode_has_four_children ⟨0, 0, 0, [], none⟩ rfl (by decide)

namespace NdnLp

/-- The cached block, when present, is a byte-exact encoding of the current
field values (the invariant asserted by the spec for `m_wire`). -/
def NackHeader.cacheConsistent (h : NackHeader) : Prop :=
  ∀ w, h.m_wire = some w → blockBytes w = h.wireEncodeBytes

theorem wireEncodeCached_some {h : NackHeader} {w : Block}
    (hw : h.m_wire = some w) : h.wireEncodeCached = some (w, h) := by
  unfold NackHeader.wireEncodeCached
  rw [hw]

end NdnLp

/-- C5: `wireDecode` rejects structural deviation: a wrong outer type fails
with a FormatError naming the expected NACK element; when children are
present they must appear in the order reason, id, prefix length, name list,
each checked by type; in particular an id field in first position fails with
the FormatError naming the expected reason field. -/
theorem NdnLp.wireDecode_structure (g : NdnLp.NackHeader) (w : NdnLp.Block) :
    (w.type ≠ NdnLp.tlvNack →
      g.wireDecode w = .error (.formatError "Nack")) ∧
    (∀ c0 rest, w.type = NdnLp.tlvNack → w.parse = some (c0 :: rest) →
      c0.type = NdnLp.tlvNackId →
      g.wireDecode w = .error (.formatError "NackReason")) ∧
    (∀ h', g.wireDecode w = .ok h' →
      w.parse = some [] ∨
      ∃ c0 c1 c2 c3 rest,
        w.parse = some (c0 :: c1 :: c2 :: c3 :: rest) ∧
        c0.type = NdnLp.tlvNackReason ∧ c1.type = NdnLp.tlvNackId ∧
        c2.type = NdnLp.tlvNackPrefixLength ∧
        c3.type = NdnLp.tlvNackFakeNameList) := by
  refine ⟨?_, ?_, ?_⟩
  · intro hne
    unfold NdnLp.NackHeader.wireDecode
    rw [if_pos hne]
  · intro c0 rest htype hparse hc0
    have hno : ¬ c0.type = NdnLp.tlvNackReason := by
      rw [hc0]
      decide
    unfold NdnLp.NackHeader.wireDecode
    rw [if_neg (by simp [htype]), hparse]
    simp [hno]
  · intro h' hok
    unfold NdnLp.NackHeader.wireDecode at hok
    repeat' split at hok
    all_goals first
      | exact Except.noConfusion hok
      | (left; assumption)
      | (right; exact ⟨_, _, _, _, _, by assumption, by assumption,
          by assumption, by assumption, by assumption⟩)

/-- Witness for C5: a wire of type 5 is rejected naming the NACK element;
a NACK wire whose first child is an id field is rejected naming the reason
field. -/
theorem NdnLp.wireDecode_structure_witness :
    NdnLp.NackHeader.wireDecode ⟨0, 0, 0, [], none⟩ ⟨5, []⟩ =
      .error (.formatError "Nack") ∧
    NdnLp.NackHeader.wireDecode ⟨0, 0, 0, [], none⟩
        ⟨NdnLp.tlvNack,
          NdnLp.blockBytes ⟨NdnLp.tlvNackId, [5]⟩ ++
            NdnLp.blockBytes ⟨NdnLp.tlvNackReason, [50]⟩⟩ =
      .error (.formatError "NackReason") :=
  ⟨(NdnLp.wireDecode_structure ⟨0, 0, 0, [], none⟩ ⟨5, []⟩).1 (by decide),
   (NdnLp.wireDecode_structure ⟨0, 0, 0, [], none⟩ _).2.1
     ⟨NdnLp.tlvNackId, [5]⟩ [⟨NdnLp.tlvNackReason, [50]⟩]
     (by decide) (by decide) (by decide)⟩

/-- C6: a wire whose reason field carries a numeric value whose tag is not
among the nine declared enumerators decodes without any error caused by the
value, and `getReason()` on the decoded header is NONE. -/
theorem NdnLp.unknownReason_decodes_to_none (g : NdnLp.NackHeader)
    (w : NdnLp.Block) (v : Nat) (c1 c2 c3 : NdnLp.Block)
    (rest : List NdnLp.Block)
    (hw : w.type = NdnLp.tlvNack)
    (hparse : w.parse = some
      (⟨NdnLp.tlvNackReason, NdnLp.encodeNonNegativeInteger v⟩ ::
        c1 :: c2 :: c3 :: rest))
    (hv : v < 2 ^ 64)
    (h1 : c1.type = NdnLp.tlvNackId)
    (h1v : ∃ a, NdnLp.readNonNegativeInteger c1 = some a)
    (h2 : c2.type = NdnLp.tlvNackPrefixLength)
    (h2v : ∃ a, NdnLp.readNonNegativeInteger c2 = some a)
    (h3 : c3.type = NdnLp.tlvNackFakeNameList)
    (h3p : ∃ cs, c3.parse = some cs)
    (hset : NdnLp.toInt32 v ∉ NdnLp.nackReasonEnumerators) :
    ∃ h', g.wireDecode w = .ok h' ∧ h'.m_reason = NdnLp.toInt32 v ∧
      h'.getReason = NdnLp.NONE := by
  obtain ⟨a1, e1⟩ := h1v
  obtain ⟨a2, e2⟩ := h2v
  obtain ⟨cs, e3⟩ := h3p
  have e0 : NdnLp.readNonNegativeInteger
      ⟨NdnLp.tlvNackReason, NdnLp.encodeNonNegativeInteger v⟩ = some v :=
    NdnLp.readNonNegativeInteger_encode hv _
  have hdec : g.wireDecode w =
      .ok ⟨NdnLp.toInt32 v, a1, a2, NdnLp.decodeNameList cs, some w⟩ := by
    unfold NdnLp.NackHeader.wireDecode
    simp only [hw, ne_eq, not_true_eq_false, if_false, ite_false, reduceIte,
      hparse, e0, e1, e2, e3, h1, h2, h3, ite_true]
  refine ⟨_, hdec, rfl, ?_⟩
  simp only [NdnLp.nackReasonEnumerators, List.mem_cons, List.not_mem_nil,
    or_false, not_or, NdnLp.DDOS_HINT_CHANGE_NOTICE, NdnLp.DDOS_FAKE_INTEREST,
    NdnLp.DDOS_VALID_INTEREST_OVERLOAD, NdnLp.DDOS_RESET_RATE,
    NdnLp.DDOS_REPORT_VALID, NdnLp.NONE, NdnLp.CONGESTION, NdnLp.DUPLICATE,
    NdnLp.NO_ROUTE] at hset
  have hcond : ¬ (NdnLp.toInt32 v = -100 ∨ NdnLp.toInt32 v = 50 ∨
      NdnLp.toInt32 v = 100 ∨ NdnLp.toInt32 v = 150) := by omega
  simp only [NdnLp.NackHeader.getReason, NdnLp.DDOS_FAKE_INTEREST,
    NdnLp.CONGESTION, NdnLp.DUPLICATE, NdnLp.NO_ROUTE, NdnLp.NONE]
  rw [if_neg hcond]

/-- Witness for C6 at reason value 7 (not a declared tag), id 5,
prefixLen 1, empty name list. -/
theorem NdnLp.unknownReason_decodes_to_none_witness :
    ∃ h', NdnLp.NackHeader.wireDecode ⟨0, 0, 0, [], none⟩
        ⟨NdnLp.tlvNack, NdnLp.blocksBytes
          [⟨NdnLp.tlvNackReason, NdnLp.encodeNonNegativeInteger 7⟩,
           ⟨NdnLp.tlvNackId, [5]⟩, ⟨NdnLp.tlvNackPrefixLength, [1]⟩,
           ⟨NdnLp.tlvNackFakeNameList, []⟩]⟩ = .ok h' ∧
      h'.m_reason = NdnLp.toInt32 7 ∧ h'.getReason = NdnLp.NONE :=
  NdnLp.unknownReason_decodes_to_none ⟨0, 0, 0, [], none⟩ _ 7
    ⟨NdnLp.tlvNackId, [5]⟩ ⟨NdnLp.tlvNackPrefixLength, [1]⟩
    ⟨NdnLp.tlvNackFakeNameList, []⟩ [] (by decide) (by decide) (by decide)
    (by decide) ⟨5, by decide⟩ (by decide) ⟨1, by decide⟩ (by decide)
    ⟨[], by decide⟩ (by decide)

/-- C8: the name-list loop consumes children from the front only while each
child has the Name type: Name children before the first non-Name child are
appended in encoded order, the loop stops silently at the first non-Name
child (no error), everything after it is ignored, and zero children yield an
empty list. -/
theorem NdnLp.nameList_loop_stops_at_first_nonName (g : NdnLp.NackHeader)
    (w c0 c1 c2 nl : NdnLp.Block) (cs pre : List NdnLp.Block)
    (hw : w.type = NdnLp.tlvNack)
    (hparse : w.parse = some [c0, c1, c2, nl])
    (h0 : c0.type = NdnLp.tlvNackReason)
    (h0v : ∃ a, NdnLp.readNonNegativeInteger c0 = some a)
    (h1 : c1.type = NdnLp.tlvNackId)
    (h1v : ∃ a, NdnLp.readNonNegativeInteger c1 = some a)
    (h2 : c2.type = NdnLp.tlvNackPrefixLength)
    (h2v : ∃ a, NdnLp.readNonNegativeInteger c2 = some a)
    (h3 : nl.type = NdnLp.tlvNackFakeNameList)
    (hcs : nl.parse = some cs)
    (hpre : ∀ x ∈ pre, x.type = NdnLp.tlvName)
    (hsplit : cs = pre ∨
      ∃ bad suf, cs = pre ++ bad :: suf ∧ bad.type ≠ NdnLp.tlvName) :
    ∃ h', g.wireDecode w = .ok h' ∧
      h'.getNames = pre.map NdnLp.Name.fromBlock := by
  obtain ⟨a0, e0⟩ := h0v
  obtain ⟨a1, e1⟩ := h1v
  obtain ⟨a2, e2⟩ := h2v
  have hdec : g.wireDecode w =
      .ok ⟨NdnLp.toInt32 a0, a1, a2, NdnLp.decodeNameList cs, some w⟩ := by
    unfold NdnLp.NackHeader.wireDecode
    simp only [hw, ne_eq, not_true_eq_false, if_false, ite_false, reduceIte,
      hparse, h0, h1, h2, h3, e0, e1, e2, hcs, ite_true]
  refine ⟨_, hdec, ?_⟩
  show NdnLp.decodeNameList cs = pre.map NdnLp.Name.fromBlock
  rcases hsplit with hcp | ⟨bad, suf, hcp, hbad⟩
  · rw [hcp]
    exact NdnLp.decodeNameList_all pre hpre
  · rw [hcp]
    exact NdnLp.decodeNameList_stop pre bad suf hpre hbad

/-- Witness for C8: a name list with children of types Name, 9, Name:
only the first Name child is kept, the loop stops at the type-9 child. -/
theorem NdnLp.nameList_loop_stops_witness :
    ∃ h', NdnLp.NackHeader.wireDecode ⟨0, 0, 0, [], none⟩
        ⟨NdnLp.tlvNack, NdnLp.blocksBytes
          [⟨NdnLp.tlvNackReason, [50]⟩, ⟨NdnLp.tlvNackId, [5]⟩,
           ⟨NdnLp.tlvNackPrefixLength, [1]⟩,
           ⟨NdnLp.tlvNackFakeNameList, NdnLp.blocksBytes
             [⟨NdnLp.tlvName, [1]⟩, ⟨9, [2]⟩, ⟨NdnLp.tlvName, [3]⟩]⟩]⟩ =
        .ok h' ∧
      h'.getNames = [⟨NdnLp.tlvName, [1]⟩].map NdnLp.Name.fromBlock :=
  NdnLp.nameList_loop_stops_at_first_nonName ⟨0, 0, 0, [], none⟩ _
    ⟨NdnLp.tlvNackReason, [50]⟩ ⟨NdnLp.tlvNackId, [5]⟩
    ⟨NdnLp.tlvNackPrefixLength, [1]⟩
    ⟨NdnLp.tlvNackFakeNameList, NdnLp.blocksBytes
      [⟨NdnLp.tlvName, [1]⟩, ⟨9, [2]⟩, ⟨NdnLp.tlvName, [3]⟩]⟩
    [⟨NdnLp.tlvName, [1]⟩, ⟨9, [2]⟩, ⟨NdnLp.tlvName, [3]⟩]
    [⟨NdnLp.tlvName, [1]⟩]
    (by decide) (by decide) (by decide) ⟨50, by decide⟩ (by decide)
    ⟨5, by decide⟩ (by decide) ⟨1, by decide⟩ (by decide) (by decide)
    (by decide)
    (Or.inr ⟨⟨9, [2]⟩, [⟨NdnLp.tlvName, [3]⟩], by decide, by decide⟩)

/-- C7 counterexample: decoding the zero-children NACK element into a header
whose id and prefix length are 1 succeeds but leaves id = 1 and
prefixLen = 1 — the code resets only the reason and the name list, not the
id or prefix-length fields, so the claimed "id 0, prefixLen 0" fails. -/
theorem NdnLp.emptyNack_decode_counterexample :
    ∃ h', NdnLp.NackHeader.wireDecode ⟨0, 1, 1, [], none⟩
        ⟨NdnLp.tlvNack, []⟩ = .ok h' ∧
      h'.m_nackId ≠ 0 ∧ h'.m_prefixLen ≠ 0 :=
  ⟨⟨0, 1, 1, [], some ⟨NdnLp.tlvNack, []⟩⟩, rfl, by decide, by decide⟩

/-- C7 amended: decoding a well-typed NACK element with zero children
succeeds for every prior header state and leaves reason NONE, an empty name
list, and the wire installed as cache; the id and prefix-length fields keep
their prior values instead of being reset to 0. -/
theorem NdnLp.emptyNack_decode_amended (g : NdnLp.NackHeader)
    (w : NdnLp.Block) (hw : w.type = NdnLp.tlvNack)
    (hp : w.parse = some []) :
    g.wireDecode w =
      .ok ⟨NdnLp.NONE, g.m_nackId, g.m_prefixLen, [], some w⟩ := by
  unfold NdnLp.NackHeader.wireDecode
  simp only [hw, ne_eq, not_true_eq_false, if_false, ite_false, reduceIte, hp]

/-- Witness for C7 at a header with reason 50, id 7, prefixLen 8. -/
theorem NdnLp.emptyNack_decode_amended_witness :
    NdnLp.NackHeader.wireDecode ⟨50, 7, 8, [], none⟩ ⟨NdnLp.tlvNack, []⟩ =
      .ok ⟨NdnLp.NONE, 7, 8, [], some ⟨NdnLp.tlvNack, []⟩⟩ :=
  NdnLp.emptyNack_decode_amended ⟨50, 7, 8, [], none⟩ ⟨NdnLp.tlvNack, []⟩
    rfl rfl

/-- Re-encoding ignores the cache field: the buffer pass depends only on the
reason, id, prefix-length and name-list fields. -/
theorem NdnLp.wireEncodeBytes_set_wire (h : NdnLp.NackHeader)
    (x : Option NdnLp.Block) :
    NdnLp.NackHeader.wireEncodeBytes
      ⟨h.m_reason, h.m_nackId, h.m_prefixLen, h.m_fakeInterestNames, x⟩ =
      h.wireEncodeBytes := by
  rw [NdnLp.wireEncodeBytes_eq, NdnLp.wireEncodeBytes_eq]
  rfl

/-- C2 amended: every setter (setReason, setId, setPrefix, setNames) drops
the cached block instead of re-encoding, so the next `wireEncode()`
recomputes it; and whenever the cache was produced by `wireEncode()` itself
the cached bytes are exactly the encoding of the current field values.  The
original claim fails for `wireDecode`, which installs the incoming wire as
cache verbatim (see the counterexample). -/
theorem NdnLp.cache_setters_and_encode (h : NdnLp.NackHeader) (r : Int)
    (i p : Nat) (ns : List NdnLp.Name)
    (hc : h.contentBytes.length < 2 ^ 64) :
    ((h.setReason r).m_wire = none ∧ (h.setId i).m_wire = none ∧
      (h.setPrefix p).m_wire = none ∧ (h.setNames ns).m_wire = none) ∧
    (h.cacheConsistent → ∀ b h', h.wireEncodeCached = some (b, h') →
      h'.cacheConsistent ∧ NdnLp.blockBytes b = h'.wireEncodeBytes) := by
  refine ⟨⟨rfl, rfl, rfl, rfl⟩, ?_⟩
  intro hcon b h' he
  cases hwire : h.m_wire with
  | some w =>
    rw [NdnLp.wireEncodeCached_some hwire] at he
    simp only [Option.some.injEq, Prod.mk.injEq] at he
    obtain ⟨rfl, rfl⟩ := he
    exact ⟨hcon, hcon w hwire⟩
  | none =>
    rw [NdnLp.wireEncodeCached_none h hwire hc] at he
    simp only [Option.some.injEq, Prod.mk.injEq] at he
    obtain ⟨rfl, rfl⟩ := he
    have hbytes : NdnLp.NackHeader.wireEncodeBytes
        { h with m_wire := some h.wireBlock } = h.wireEncodeBytes :=
      NdnLp.wireEncodeBytes_set_wire h (some h.wireBlock)
    constructor
    · intro w' hw'
      simp only [Option.some.injEq] at hw'
      rw [← hw', hbytes, NdnLp.wireEncodeBytes_eq]
    · rw [hbytes, NdnLp.wireEncodeBytes_eq]

/-- Witness for C2 at the all-defaults header. -/
theorem NdnLp.cache_setters_and_encode_witness :
    (((⟨0, 0, 0, [], none⟩ : NdnLp.NackHeader).setReason 50).m_wire = none ∧
      ((⟨0, 0, 0, [], none⟩ : NdnLp.NackHeader).setId 1).m_wire = none ∧
      ((⟨0, 0, 0, [], none⟩ : NdnLp.NackHeader).setPrefix 2).m_wire = none ∧
      ((⟨0, 0, 0, [], none⟩ : NdnLp.NackHeader).setNames []).m_wire = none) ∧
    ((⟨0, 0, 0, [], none⟩ : NdnLp.NackHeader).cacheConsistent →
      ∀ b h', (⟨0, 0, 0, [], none⟩ : NdnLp.NackHeader).wireEncodeCached =
          some (b, h') →
        h'.cacheConsistent ∧ NdnLp.blockBytes b = h'.wireEncodeBytes) :=
  NdnLp.cache_setters_and_encode ⟨0, 0, 0, [], none⟩ 50 1 2 [] (by decide)

/-- C2 counterexample: `wireDecode` is an operation of NackHeader that
breaks the claimed invariant: decoding the zero-children NACK element
succeeds and installs the incoming 4-byte wire as cache, but the encoding
of the resulting field values is the 19-byte four-child form, so the cached
bytes are not the encoding of the current fields. -/
theorem NdnLp.cache_invariant_counterexample :
    ∃ h', NdnLp.NackHeader.wireDecode ⟨0, 5, 6, [], none⟩
        ⟨NdnLp.tlvNack, []⟩ = .ok h' ∧
      h'.m_wire = some ⟨NdnLp.tlvNack, []⟩ ∧ ¬ h'.cacheConsistent := by
  refine ⟨⟨0, 5, 6, [], some ⟨NdnLp.tlvNack, []⟩⟩, rfl, rfl, ?_⟩
  intro hcon
  have hb := hcon ⟨NdnLp.tlvNack, []⟩ rfl
  exact absurd hb (by decide)
